import Mathlib

/-!
Shallow embedding of the BestPick core: the similarity-grouping and
quality-scoring pipeline (src/utils/imageAnalysis.ts) and the selection
state machine with linear undo/redo history (src/context/PhotoContext.tsx).

Conventions of the embedding:
* JS numbers are modelled as `ℚ` (similarities, thresholds) or `ℤ`
  (quality scores, `Date.getTime()` millisecond timestamps).
* `cos_sim` is imported by the source from `@huggingface/transformers`
  (an external collaborator); it is modelled as an explicit function
  parameter `cs : List ℚ → List ℚ → ℚ` applied to the embedding vectors.
* `Photo.embedding : number[] | undefined` becomes `Option (List ℚ)`;
  the JS truthiness test `p.embedding && p.embedding.length > 0` becomes
  `hasEmbedding`.
* JS `Array.prototype.sort` is stable (ES2019); a stable sort by a total
  preorder has a unique result, so each `sort` call is modelled by
  `List.insertionSort` (stable, structurally recursive, hence kernel
  computable) with the comparator-induced order.
* History entries `{selectedPhotos, timestamp}` are modelled by their
  `selectedPhotos` list; the wall-clock `timestamp` is I/O and carries no
  program logic.
* `PhotoGroup.title` (locale-formatted date string from `getGroupTitle`)
  is environment-dependent I/O formatting and is omitted.
-/

namespace BestPick

/-- A photo and its derived data (src/types, as used by the core).
`dateCreated` is `new Date(file.lastModified)`, `captureDate` is
`metadata.captureDate` (both are `Date`s, modelled by their epoch-ms
integer value). -/
structure Photo where
  id : String
  embedding : Option (List ℚ)
  quality : ℤ
  dateCreated : ℤ
  captureDate : ℤ
  selected : Bool
deriving DecidableEq

instance : Inhabited Photo := ⟨⟨"", none, 0, 0, 0, false⟩⟩

/-- A cluster of photos judged mutually similar (src/types). -/
structure PhotoGroup where
  id : String
  date : ℤ
  photos : List Photo
  similarity : ℚ
  similarityThreshold : ℚ
deriving DecidableEq

instance : Inhabited PhotoGroup := ⟨⟨"", 0, [], 0, 0⟩⟩

/-- The JS truthiness test `p.embedding && p.embedding.length > 0`
used by `groupSimilarPhotos` (imageAnalysis.ts lines 195, 237). -/
def hasEmbedding (p : Photo) : Bool :=
  match p.embedding with
  | some e => !e.isEmpty
  | none => false

/-- Comparator order for `sort((a, b) => b.quality! - a.quality!)`:
quality descending, stable on ties. -/
def qualityDescLE (x y : Photo) : Prop := y.quality ≤ x.quality

instance : DecidableRel qualityDescLE :=
  fun x y => inferInstanceAs (Decidable (y.quality ≤ x.quality))

instance : IsTotal Photo qualityDescLE := ⟨fun x y => le_total y.quality x.quality⟩

instance : IsTrans Photo qualityDescLE := ⟨fun _ _ _ h1 h2 => le_trans h2 h1⟩

/-- Comparator order for `sort((a, b) => b.dateCreated.getTime() - a.dateCreated.getTime())`. -/
def dateCreatedDescLE (x y : Photo) : Prop := y.dateCreated ≤ x.dateCreated

instance : DecidableRel dateCreatedDescLE :=
  fun x y => inferInstanceAs (Decidable (y.dateCreated ≤ x.dateCreated))

/-- Comparator order for `groups.sort((a, b) => b.date.getTime() - a.date.getTime())`. -/
def groupDateDescLE (x y : PhotoGroup) : Prop := y.date ≤ x.date

instance : DecidableRel groupDateDescLE :=
  fun x y => inferInstanceAs (Decidable (y.date ≤ x.date))

/-- The inner scan of `groupSimilarPhotos` (imageAnalysis.ts lines 210-221):
for the fixed anchor `a`, walk the photos after it in input order, skipping
ones already in the `processed` id set; a candidate `b` joins when both
embeddings are present and `cos_sim(a, b) >= threshold`, is then marked
processed, and the running minimum similarity is updated.
Returns (joined members in order, min similarity, processed ids). -/
def scanGroup (cs : List ℚ → List ℚ → ℚ) (th : ℚ) (a : Photo) :
    List Photo → ℚ → List String → List Photo × ℚ × List String
  | [], minSim, proc => ([], minSim, proc)
  | b :: rest, minSim, proc =>
    if b.id ∈ proc then scanGroup cs th a rest minSim proc
    else if a.embedding.isSome ∧ b.embedding.isSome then
      let similarity := cs (a.embedding.getD []) (b.embedding.getD [])
      if th ≤ similarity then
        let r := scanGroup cs th a rest (min minSim similarity) (b.id :: proc)
        (b :: r.1, r.2)
      else scanGroup cs th a rest minSim proc
    else scanGroup cs th a rest minSim proc

/-- The outer loop of `groupSimilarPhotos` (imageAnalysis.ts lines 204-235):
each photo not yet processed becomes the anchor of a candidate group
(starting with `minSimilarityInGroup = 1.0` and marking the anchor
processed); if the candidate has more than one member it is finalized
(members sorted by quality descending, id and date from the top member),
otherwise the anchor goes to `uniquePhotos`. -/
def groupPass (cs : List ℚ → List ℚ → ℚ) (th : ℚ) :
    List Photo → List String → List PhotoGroup × List Photo
  | [], _ => ([], [])
  | a :: rest, proc =>
    if a.id ∈ proc then groupPass cs th rest proc
    else
      let scanned := scanGroup cs th a rest 1 (a.id :: proc)
      let r := groupPass cs th rest scanned.2.2
      if 1 < (a :: scanned.1).length then
        let sortedPhotos := (a :: scanned.1).insertionSort qualityDescLE
        ({ id := sortedPhotos.headI.id ++ "-group",
           date := sortedPhotos.headI.dateCreated,
           photos := sortedPhotos,
           similarity := scanned.2.1,
           similarityThreshold := th } :: r.1, r.2)
      else (r.1, a :: r.2)

/-- `groupSimilarPhotos` (imageAnalysis.ts lines 194-244). The source's
default `similarityThreshold = 0.7` is passed explicitly here. Photos
without a (nonempty) embedding are excluded from the pass and appended to
`uniquePhotos` afterwards unless an id-equal photo is already there; the
groups are finally sorted by date descending and the unique photos by
`dateCreated` descending. -/
def groupSimilarPhotos (cs : List ℚ → List ℚ → ℚ) (photos : List Photo)
    (similarityThreshold : ℚ) : List PhotoGroup × List Photo :=
  let photosWithEmbeddings := photos.filter hasEmbedding
  if photosWithEmbeddings.isEmpty then
    let photosWithoutEmbeddings := photos.filter (fun p => !hasEmbedding p)
    ([], photosWithoutEmbeddings.insertionSort dateCreatedDescLE)
  else
    let passResult := groupPass cs similarityThreshold photosWithEmbeddings []
    let uniqueWithMissing := photos.foldl
      (fun acc p =>
        if (!hasEmbedding p) && !(acc.any (fun up => decide (up.id = p.id)))
        then acc ++ [p] else acc)
      passResult.2
    (passResult.1.insertionSort groupDateDescLE,
     uniqueWithMissing.insertionSort dateCreatedDescLE)

/-- The quality computation of `analyzeImage` (imageAnalysis.ts lines
129-168): average cosine similarity of the image embedding to each
positive prompt embedding row minus the average over the negative rows,
then `Math.max(0, Math.min(100, Math.round(((raw*15 + 1) / 2) * 100)))`;
0 when the embedding is missing/empty or the prompt embeddings are absent.
(`Math.round` rounds half toward positive infinity, as does Mathlib's
`round` on `ℚ`.) -/
def analyzeImageQuality (cs : List ℚ → List ℚ → ℚ) (embedding : Option (List ℚ))
    (qualityEmbeddings : Option (List (List ℚ) × List (List ℚ))) : ℤ :=
  match embedding, qualityEmbeddings with
  | some emb, some prompts =>
    if emb.isEmpty then 0
    else
      let positives := prompts.1
      let negatives := prompts.2
      let avgPositiveSimilarity := (positives.map (fun p => cs emb p)).sum / positives.length
      let avgNegativeSimilarity := (negatives.map (fun p => cs emb p)).sum / negatives.length
      let rawScore := avgPositiveSimilarity - avgNegativeSimilarity
      max 0 (min 100 (round ((rawScore * 15 + 1) / 2 * 100)))
  | _, _ => 0

/-- The full session snapshot (src/types `AppState`); history entries are
the `selectedPhotos` snapshots. -/
structure AppState where
  photos : List Photo
  groups : List PhotoGroup
  uniquePhotos : List Photo
  selectedPhotos : List String
  history : List (List String)
  currentHistoryIndex : ℤ
deriving DecidableEq

/-- The reducer's action type (PhotoContext.tsx `PhotoAction`). -/
inductive PhotoAction where
  | addPhotoAndUpdateGroups (photo : Photo) (groups : List PhotoGroup) (uniquePhotos : List Photo)
  | toggleSelectPhoto (photoId : String)
  | selectAllInGroup (groupId : String)
  | deselectAllInGroup (groupId : String)
  | selectAll
  | deselectAll
  | undo
  | redo
deriving DecidableEq

/-- JS `array.slice(0, e)` (used as `history.slice(0, currentHistoryIndex + 1)`);
a negative end index counts from the end of the array. -/
def jsSliceTo {α : Type} (l : List α) (e : ℤ) : List α :=
  if 0 ≤ e then l.take e.toNat else l.take ((l.length : ℤ) + e).toNat

/-- JS `Array.from(new Set(l))`: deduplicate keeping first occurrences. -/
def jsSetToList (l : List String) : List String :=
  l.foldl (fun acc x => if x ∈ acc then acc else acc ++ [x]) []

/-- The no-change test of `SELECT_ALL_IN_GROUP` (PhotoContext.tsx line 148)
and, with `newSelected := photos.map id`, of `SELECT_ALL` (line 205). -/
def selectionUnchanged (oldSelected newSelected : List String) : Prop :=
  newSelected.length = oldSelected.length ∧ ∀ i ∈ newSelected, i ∈ oldSelected

instance (o n : List String) : Decidable (selectionUnchanged o n) := by
  unfold selectionUnchanged; infer_instance

/-- The selection state machine (PhotoContext.tsx `reducer`, lines 31-285),
one pure transition per dispatched action. Out-of-range history reads in
`UNDO`/`REDO` (which would fault in JS) are modelled by `List.getD` with
default `[]`; no in-scope claim exercises them. -/
def reducer (state : AppState) (action : PhotoAction) : AppState :=
  match action with
  | .addPhotoAndUpdateGroups photo groups uniquePhotos =>
    let updatedPhotos := state.photos ++ [photo]
    let autoSelectedPhotos :=
      uniquePhotos.map Photo.id ++ groups.map (fun g => g.photos.headI.id)
    let newPhotos := updatedPhotos.map
      (fun p => { p with selected := decide (p.id ∈ autoSelectedPhotos) })
    if state.photos.isEmpty then
      { state with
        photos := newPhotos
        groups := groups
        uniquePhotos := uniquePhotos
        selectedPhotos := autoSelectedPhotos
        history := [autoSelectedPhotos]
        currentHistoryIndex := 0 }
    else
      let history :=
        jsSliceTo state.history (state.currentHistoryIndex + 1) ++ [autoSelectedPhotos]
      { state with
        photos := newPhotos
        groups := groups
        uniquePhotos := uniquePhotos
        selectedPhotos := autoSelectedPhotos
        history := history
        currentHistoryIndex := (history.length : ℤ) - 1 }
  | .toggleSelectPhoto photoId =>
    let newSelectedPhotos :=
      if photoId ∈ state.selectedPhotos then state.selectedPhotos.erase photoId
      else state.selectedPhotos ++ [photoId]
    { state with
      selectedPhotos := newSelectedPhotos,
      history := jsSliceTo state.history (state.currentHistoryIndex + 1) ++ [newSelectedPhotos],
      currentHistoryIndex := state.currentHistoryIndex + 1,
      photos := state.photos.map
        (fun p => if p.id = photoId then { p with selected := !p.selected } else p) }
  | .selectAllInGroup groupId =>
    match state.groups.find? (fun g => decide (g.id = groupId)) with
    | none => state
    | some group =>
      let photoIds := group.photos.map Photo.id
      let newSelectedPhotos := jsSetToList (state.selectedPhotos ++ photoIds)
      if selectionUnchanged state.selectedPhotos newSelectedPhotos then state
      else
        { state with
          selectedPhotos := newSelectedPhotos,
          history := jsSliceTo state.history (state.currentHistoryIndex + 1) ++ [newSelectedPhotos],
          currentHistoryIndex := state.currentHistoryIndex + 1,
          photos := state.photos.map
            (fun p => if p.id ∈ photoIds then { p with selected := true } else p) }
  | .deselectAllInGroup groupId =>
    match state.groups.find? (fun g => decide (g.id = groupId)) with
    | none => state
    | some group =>
      let photoIds := group.photos.map Photo.id
      let newSelectedPhotos := state.selectedPhotos.filter (fun i => decide (i ∉ photoIds))
      if newSelectedPhotos.length = state.selectedPhotos.length then state
      else
        { state with
          selectedPhotos := newSelectedPhotos,
          history := jsSliceTo state.history (state.currentHistoryIndex + 1) ++ [newSelectedPhotos],
          currentHistoryIndex := state.currentHistoryIndex + 1,
          photos := state.photos.map
            (fun p => if p.id ∈ photoIds then { p with selected := false } else p) }
  | .selectAll =>
    let allPhotoIds := state.photos.map Photo.id
    if selectionUnchanged state.selectedPhotos allPhotoIds then state
    else
      { state with
        selectedPhotos := allPhotoIds,
        history := jsSliceTo state.history (state.currentHistoryIndex + 1) ++ [allPhotoIds],
        currentHistoryIndex := state.currentHistoryIndex + 1,
        photos := state.photos.map (fun p => { p with selected := true }) }
  | .deselectAll =>
    if state.selectedPhotos.isEmpty then state
    else
      { state with
        selectedPhotos := [],
        history := jsSliceTo state.history (state.currentHistoryIndex + 1) ++ [([] : List String)],
        currentHistoryIndex := state.currentHistoryIndex + 1,
        photos := state.photos.map (fun p => { p with selected := false }) }
  | .undo =>
    if state.currentHistoryIndex ≤ 0 then state
    else
      let historySelected := state.history.getD (state.currentHistoryIndex - 1).toNat []
      { state with
        selectedPhotos := historySelected,
        currentHistoryIndex := state.currentHistoryIndex - 1,
        photos := state.photos.map
          (fun p => { p with selected := decide (p.id ∈ historySelected) }) }
  | .redo =>
    if (state.history.length : ℤ) - 1 ≤ state.currentHistoryIndex then state
    else
      let historySelected := state.history.getD (state.currentHistoryIndex + 1).toNat []
      { state with
        selectedPhotos := historySelected,
        currentHistoryIndex := state.currentHistoryIndex + 1,
        photos := state.photos.map
          (fun p => { p with selected := decide (p.id ∈ historySelected) }) }

/-- The spec's selection-consistency predicate:
`photos[i].selected == selectedPhotos.contains(photos[i].id)`. -/
def selectionConsistent (s : AppState) : Bool :=
  s.photos.all (fun p => p.selected == decide (p.id ∈ s.selectedPhotos))

/-- Whether the action, applied to this state, takes the history-appending
path of the reducer (mirrors each case's early-return tests; an ingest onto
an empty photo list resets rather than appends, so it is excluded). -/
def appendsEntry (s : AppState) : PhotoAction → Bool
  | .addPhotoAndUpdateGroups _ _ _ => !s.photos.isEmpty
  | .toggleSelectPhoto _ => true
  | .selectAllInGroup groupId =>
    match s.groups.find? (fun g => decide (g.id = groupId)) with
    | none => false
    | some group =>
      !decide (selectionUnchanged s.selectedPhotos
        (jsSetToList (s.selectedPhotos ++ group.photos.map Photo.id)))
  | .deselectAllInGroup groupId =>
    match s.groups.find? (fun g => decide (g.id = groupId)) with
    | none => false
    | some group =>
      !decide ((s.selectedPhotos.filter
        (fun i => decide (i ∉ group.photos.map Photo.id))).length = s.selectedPhotos.length)
  | .selectAll => !decide (selectionUnchanged s.selectedPhotos (s.photos.map Photo.id))
  | .deselectAll => !s.selectedPhotos.isEmpty
  | .undo => false
  | .redo => false


/-! ### Helper lemmas -/

lemma mem_jsSetToList_aux (x : String) (l acc : List String) :
    x ∈ l.foldl (fun acc y => if y ∈ acc then acc else acc ++ [y]) acc ↔
      x ∈ acc ∨ x ∈ l := by
  induction l generalizing acc with
  | nil => simp
  | cons y l ih =>
    simp only [List.foldl_cons, ih, List.mem_cons]
    by_cases hy : y ∈ acc
    · simp only [if_pos hy]
      constructor
      · rintro (h | h)
        · exact Or.inl h
        · exact Or.inr (Or.inr h)
      · rintro (h | rfl | h)
        · exact Or.inl h
        · exact Or.inl hy
        · exact Or.inr h
    · simp only [if_neg hy, List.mem_append, List.mem_singleton]
      tauto

lemma mem_jsSetToList {x : String} {l : List String} :
    x ∈ jsSetToList l ↔ x ∈ l := by
  simp [jsSetToList, mem_jsSetToList_aux]

lemma selectionConsistent_iff (s : AppState) :
    selectionConsistent s = true ↔
      ∀ p ∈ s.photos, (p.selected = true ↔ p.id ∈ s.selectedPhotos) := by
  simp only [selectionConsistent, List.all_eq_true, beq_iff_eq]
  refine forall₂_congr fun p _ => ?_
  constructor
  · intro h
    rw [h]
    simp
  · intro h
    rcases Bool.eq_false_or_eq_true p.selected with hs | hs <;> rw [hs] <;> simp_all

lemma map_id_of_not_mem_toggle {photos : List Photo} {photoId : String}
    (h : photoId ∉ photos.map Photo.id) :
    photos.map
      (fun p => if p.id = photoId then { p with selected := !p.selected } else p) = photos := by
  induction photos with
  | nil => rfl
  | cons p ps ih =>
    simp only [List.map_cons, List.mem_cons] at h
    push_neg at h
    simp only [List.map_cons]
    rw [if_neg (fun e => h.1 e.symm), ih (fun hm => h.2 hm)]

/-! ### Claim C2: ToggleSelect on an unknown photo id -/

/-- Claim C2 counterexample: in the empty initial state (whose `photos`
list contains no photo with id "x"), `TOGGLE_SELECT_PHOTO "x"` does not
return the state unchanged: it adds "x" to `selectedPhotos` and appends a
history entry. -/
theorem toggleSelect_unknown_not_noop :
    "x" ∉ (AppState.mk [] [] [] [] [] (-1)).photos.map Photo.id ∧
      reducer (AppState.mk [] [] [] [] [] (-1)) (.toggleSelectPhoto "x") ≠
        AppState.mk [] [] [] [] [] (-1) := by
  constructor
  · simp
  · decide

/-- Claim C2 (amended): `TOGGLE_SELECT_PHOTO photoId` with `photoId` not
occurring among the ids of `state.photos` leaves `photos` unchanged, but it
is not a no-op: it still flips `photoId`'s membership in `selectedPhotos`
(appending it, or erasing its first occurrence), appends a history entry
with the new selection after truncating redo entries, and increments
`currentHistoryIndex`. -/
theorem toggleSelect_unknown_id (s : AppState) (photoId : String)
    (h : photoId ∉ s.photos.map Photo.id) :
    (reducer s (.toggleSelectPhoto photoId)).photos = s.photos ∧
    (reducer s (.toggleSelectPhoto photoId)).selectedPhotos =
      (if photoId ∈ s.selectedPhotos then s.selectedPhotos.erase photoId
       else s.selectedPhotos ++ [photoId]) ∧
    (reducer s (.toggleSelectPhoto photoId)).history =
      jsSliceTo s.history (s.currentHistoryIndex + 1) ++
        [(reducer s (.toggleSelectPhoto photoId)).selectedPhotos] ∧
    (reducer s (.toggleSelectPhoto photoId)).currentHistoryIndex =
      s.currentHistoryIndex + 1 := by
  refine ⟨map_id_of_not_mem_toggle h, rfl, rfl, rfl⟩

/-- Claim C2 witness: the amended theorem applied to a concrete state
holding one photo "a" and an unknown id "x". -/
theorem toggleSelect_unknown_id_witness :
    "x" ∉ (AppState.mk [⟨"a", none, 0, 0, 0, false⟩] [] [] [] [["z"]] 0).photos.map Photo.id ∧
      (reducer (AppState.mk [⟨"a", none, 0, 0, 0, false⟩] [] [] [] [["z"]] 0)
          (.toggleSelectPhoto "x")).photos =
        (AppState.mk [⟨"a", none, 0, 0, 0, false⟩] [] [] [] [["z"]] 0).photos :=
  ⟨by decide, (toggleSelect_unknown_id _ "x" (by decide)).1⟩

/-! ### Claim C4: the selection-consistency invariant -/

/-- Claim C4 counterexample: the invariant
`photos[i].selected == selectedPhotos.contains(photos[i].id)` is NOT
preserved by every transition from every state satisfying it: in a state
whose `selectedPhotos` holds the id "a" twice, `TOGGLE_SELECT_PHOTO "a"`
removes only the first occurrence (`splice(indexOf, 1)`) while flipping the
photo's `selected` flag to `false`, breaking the invariant. -/
theorem selectionConsistent_not_preserved :
    selectionConsistent
        (AppState.mk [⟨"a", none, 0, 0, 0, true⟩] [] [] ["a", "a"] [["a", "a"]] 0) = true ∧
      selectionConsistent
        (reducer (AppState.mk [⟨"a", none, 0, 0, 0, true⟩] [] [] ["a", "a"] [["a", "a"]] 0)
          (.toggleSelectPhoto "a")) = false := by
  decide

/-- Claim C4 (amended): the invariant
`photos[i].selected == selectedPhotos.contains(photos[i].id)` is preserved
by every Selection Store transition from every input state that satisfies
it and whose `selectedPhotos` list is duplicate-free (as is the case in
every state the store actually reaches). -/
theorem selectionConsistent_preserved (s : AppState) (a : PhotoAction)
    (hc : selectionConsistent s = true) (hnd : s.selectedPhotos.Nodup) :
    selectionConsistent (reducer s a) = true := by
  rw [selectionConsistent_iff] at hc ⊢
  match a with
  | .addPhotoAndUpdateGroups photo groups uniquePhotos =>
    simp only [reducer]
    split <;>
    · intro p hp
      simp only [List.map_append, List.mem_append, List.mem_map, List.map_cons, List.map_nil,
        List.mem_singleton] at hp
      rcases hp with ⟨q, hq, rfl⟩ | rfl <;> simp
  | .toggleSelectPhoto photoId =>
    intro p hp
    simp only [reducer, List.mem_map] at hp ⊢
    obtain ⟨q, hq, rfl⟩ := hp
    by_cases hid : q.id = photoId
    · simp only [if_pos hid]
      by_cases hmem : photoId ∈ s.selectedPhotos
      · have hqsel : q.selected = true := (hc q hq).mpr (hid ▸ hmem)
        simp [hqsel, hid, hmem, List.Nodup.mem_erase_iff hnd]
      · have hqsel : q.selected = false :=
          Bool.eq_false_iff.mpr (fun h => hmem (hid ▸ (hc q hq).mp h))
        simp [hqsel, hid, hmem]
    · simp only [if_neg hid]
      by_cases hmem : photoId ∈ s.selectedPhotos
      · simp only [if_pos hmem]
        rw [hc q hq, List.Nodup.mem_erase_iff hnd]
        exact ⟨fun h => ⟨hid, h⟩, fun h => h.2⟩
      · simp only [if_neg hmem]
        rw [hc q hq]
        simp [hid]
  | .selectAllInGroup groupId =>
    cases hf : s.groups.find? (fun g => decide (g.id = groupId)) with
    | none =>
      simpa only [reducer, hf] using hc
    | some group =>
      simp only [reducer, hf]
      split
      · exact hc
      · intro p hp
        simp only [List.mem_map] at hp
        obtain ⟨q, hq, rfl⟩ := hp
        by_cases hid : ∃ a ∈ group.photos, a.id = q.id
        · simp [hid, mem_jsSetToList]
        · simp [hid, hc q hq, mem_jsSetToList]
  | .deselectAllInGroup groupId =>
    cases hf : s.groups.find? (fun g => decide (g.id = groupId)) with
    | none =>
      simpa only [reducer, hf] using hc
    | some group =>
      simp only [reducer, hf]
      split
      · exact hc
      · intro p hp
        simp only [List.mem_map] at hp
        obtain ⟨q, hq, rfl⟩ := hp
        by_cases hid : ∃ a ∈ group.photos, a.id = q.id
        · simp [hid, List.mem_filter]
        · simp [hid, hc q hq, List.mem_filter]
          push_neg at hid
          exact fun _ => hid
  | .selectAll =>
    simp only [reducer]
    split
    · exact hc
    · intro p hp
      simp only [List.mem_map] at hp
      obtain ⟨q, hq, rfl⟩ := hp
      simp
      exact ⟨q, hq, rfl⟩
  | .deselectAll =>
    simp only [reducer]
    split
    · exact hc
    · intro p hp
      simp only [List.mem_map] at hp
      obtain ⟨q, hq, rfl⟩ := hp
      simp
  | .undo =>
    simp only [reducer]
    split
    · exact hc
    · intro p hp
      simp only [List.mem_map] at hp
      obtain ⟨q, hq, rfl⟩ := hp
      simp
  | .redo =>
    simp only [reducer]
    split
    · exact hc
    · intro p hp
      simp only [List.mem_map] at hp
      obtain ⟨q, hq, rfl⟩ := hp
      simp

/-- Claim C4 witness: the amended preservation theorem applied to a
concrete consistent state and a toggle action. -/
theorem selectionConsistent_preserved_witness :
    selectionConsistent (AppState.mk [⟨"a", none, 0, 0, 0, true⟩] [] [] ["a"] [["a"]] 0) = true ∧
      (["a"] : List String).Nodup ∧
      selectionConsistent
        (reducer (AppState.mk [⟨"a", none, 0, 0, 0, true⟩] [] [] ["a"] [["a"]] 0)
          (.toggleSelectPhoto "a")) = true :=
  ⟨by decide, by decide,
    selectionConsistent_preserved _ (.toggleSelectPhoto "a") (by decide) (by decide)⟩

/-! ### Claim C7: the quality score formula -/

/-- Claim C7: with a nonempty image embedding and the 10 positive and 10
negative prompt embeddings present, the quality equals
`max(0, min(100, round(((raw * 15 + 1) / 2) * 100)))` where
`raw = avgPos - avgNeg` is the difference of the mean similarities; the
result is always in [0, 100], and `raw = 0.8` yields exactly 100. -/
theorem analyzeImageQuality_formula (cs : List ℚ → List ℚ → ℚ) (emb : List ℚ)
    (pos neg : List (List ℚ))
    (hne : emb ≠ []) (hpos : pos.length = 10) (hneg : neg.length = 10) :
    analyzeImageQuality cs (some emb) (some (pos, neg)) =
        max 0 (min 100 (round
          ((((pos.map (fun p => cs emb p)).sum / 10 -
             (neg.map (fun p => cs emb p)).sum / 10) * 15 + 1) / 2 * 100))) ∧
      0 ≤ analyzeImageQuality cs (some emb) (some (pos, neg)) ∧
      analyzeImageQuality cs (some emb) (some (pos, neg)) ≤ 100 ∧
      ((pos.map (fun p => cs emb p)).sum / 10 -
          (neg.map (fun p => cs emb p)).sum / 10 = 4/5 →
        analyzeImageQuality cs (some emb) (some (pos, neg)) = 100) := by
  have h0 : emb.isEmpty = false := by
    simp [List.isEmpty_iff, hne]
  have heq : analyzeImageQuality cs (some emb) (some (pos, neg)) =
      max 0 (min 100 (round
        ((((pos.map (fun p => cs emb p)).sum / 10 -
           (neg.map (fun p => cs emb p)).sum / 10) * 15 + 1) / 2 * 100))) := by
    simp only [analyzeImageQuality, h0, Bool.false_eq_true, if_false, hpos, hneg]
    norm_num
  refine ⟨heq, ?_, ?_, ?_⟩
  · rw [heq]
    exact le_max_left 0 _
  · rw [heq]
    exact max_le (by norm_num) (min_le_left 100 _)
  · intro hraw
    rw [heq, hraw]
    norm_num [round_eq]

/-- Claim C7 witness: the formula theorem applied to a concrete embedding
and concrete 10-element prompt lists. -/
theorem analyzeImageQuality_formula_witness :
    ([(1 : ℚ)] ≠ []) ∧ (List.replicate 10 ([] : List ℚ)).length = 10 ∧
      0 ≤ analyzeImageQuality (fun _ _ => 0) (some [1])
          (some (List.replicate 10 [], List.replicate 10 [])) ∧
      analyzeImageQuality (fun _ _ => 0) (some [1])
          (some (List.replicate 10 [], List.replicate 10 [])) ≤ 100 :=
  ⟨by decide, by decide,
    (analyzeImageQuality_formula (fun _ _ => 0) [1] (List.replicate 10 [])
      (List.replicate 10 []) (by decide) (by decide) (by decide)).2.1,
    (analyzeImageQuality_formula (fun _ _ => 0) [1] (List.replicate 10 [])
      (List.replicate 10 []) (by decide) (by decide) (by decide)).2.2.1⟩

/-! ### Claims C5 and C6: history discipline and undo/redo -/

lemma jsSliceTo_length {α : Type} (l : List α) (e : ℤ) (h0 : 0 ≤ e)
    (h : e ≤ (l.length : ℤ)) : ((jsSliceTo l e).length : ℤ) = e := by
  simp only [jsSliceTo, if_pos h0, List.length_take]
  omega

/-- Every history-appending transition rewrites the history to
`slice(0, currentHistoryIndex + 1) ++ [new entry]` and moves the pointer to
`currentHistoryIndex + 1` (shared shape lemma for the C5 and C6 claims). -/
lemma reducer_append_shape (s : AppState) (a : PhotoAction)
    (h1 : -1 ≤ s.currentHistoryIndex) (h2 : s.currentHistoryIndex < (s.history.length : ℤ))
    (ha : appendsEntry s a = true) :
    (reducer s a).history =
      jsSliceTo s.history (s.currentHistoryIndex + 1) ++ [(reducer s a).selectedPhotos] ∧
    (reducer s a).currentHistoryIndex = s.currentHistoryIndex + 1 := by
  have hlen : ((jsSliceTo s.history (s.currentHistoryIndex + 1)).length : ℤ) =
      s.currentHistoryIndex + 1 :=
    jsSliceTo_length _ _ (by omega) (by omega)
  match a with
  | .addPhotoAndUpdateGroups photo groups uniquePhotos =>
    simp only [appendsEntry, Bool.not_eq_true'] at ha
    simp only [reducer, ha, Bool.false_eq_true, if_false]
    refine ⟨trivial, ?_⟩
    simp only [List.length_append, List.length_singleton]
    push_cast
    omega
  | .toggleSelectPhoto photoId =>
    exact ⟨rfl, rfl⟩
  | .selectAllInGroup groupId =>
    simp only [appendsEntry] at ha
    cases hf : s.groups.find? (fun g => decide (g.id = groupId)) with
    | none => rw [hf] at ha; simp at ha
    | some group =>
      rw [hf] at ha
      simp only [Bool.not_eq_true', decide_eq_false_iff_not] at ha
      simp only [reducer, hf, if_neg ha]
      exact ⟨trivial, trivial⟩
  | .deselectAllInGroup groupId =>
    simp only [appendsEntry] at ha
    cases hf : s.groups.find? (fun g => decide (g.id = groupId)) with
    | none => rw [hf] at ha; simp at ha
    | some group =>
      rw [hf] at ha
      simp only [Bool.not_eq_true', decide_eq_false_iff_not] at ha
      simp only [reducer, hf, if_neg ha]
      exact ⟨trivial, trivial⟩
  | .selectAll =>
    simp only [appendsEntry, Bool.not_eq_true', decide_eq_false_iff_not] at ha
    simp only [reducer, if_neg ha]
    exact ⟨trivial, trivial⟩
  | .deselectAll =>
    simp only [appendsEntry, Bool.not_eq_true'] at ha
    simp only [reducer, ha, Bool.false_eq_true, if_false]
    exact ⟨trivial, trivial⟩
  | .undo => simp [appendsEntry] at ha
  | .redo => simp [appendsEntry] at ha

/-- Claim C5: under the state invariant `-1 <= currentHistoryIndex <
history.length`, every transition that appends to history (an ingest onto a
non-empty photo list, a toggle, or a non-no-op group/global
select/deselect) produces `history = old history truncated to indices
0..currentHistoryIndex, plus one entry holding the output selection`, with
the output pointer at the last entry; an ingest onto an empty photo list
resets the history to exactly one entry with the pointer at 0. -/
theorem history_discipline (s : AppState) (a : PhotoAction)
    (h1 : -1 ≤ s.currentHistoryIndex) (h2 : s.currentHistoryIndex < (s.history.length : ℤ)) :
    (appendsEntry s a = true →
      (reducer s a).history =
        jsSliceTo s.history (s.currentHistoryIndex + 1) ++ [(reducer s a).selectedPhotos] ∧
      (reducer s a).currentHistoryIndex = ((reducer s a).history.length : ℤ) - 1) ∧
    (∀ photo groups uniquePhotos, a = .addPhotoAndUpdateGroups photo groups uniquePhotos →
      s.photos = [] →
      (reducer s a).history = [(reducer s a).selectedPhotos] ∧
      (reducer s a).currentHistoryIndex = 0) := by
  constructor
  · intro ha
    obtain ⟨hh, hi⟩ := reducer_append_shape s a h1 h2 ha
    refine ⟨hh, ?_⟩
    rw [hh, hi]
    simp only [List.length_append, List.length_singleton]
    have hlen : ((jsSliceTo s.history (s.currentHistoryIndex + 1)).length : ℤ) =
        s.currentHistoryIndex + 1 :=
      jsSliceTo_length _ _ (by omega) (by omega)
    push_cast
    omega
  · rintro photo groups uniquePhotos rfl hempty
    have he : s.photos.isEmpty = true := by simp [hempty]
    simp only [reducer, he, if_true]
    exact ⟨trivial, trivial⟩

/-- Claim C5 witness: the discipline theorem applied to a concrete state
with one history entry and a toggle action. -/
theorem history_discipline_witness :
    (-1 ≤ (AppState.mk [] [] [] ["a"] [["a"]] 0).currentHistoryIndex) ∧
      ((AppState.mk [] [] [] ["a"] [["a"]] 0).currentHistoryIndex <
        ((AppState.mk [] [] [] ["a"] [["a"]] 0).history.length : ℤ)) ∧
      appendsEntry (AppState.mk [] [] [] ["a"] [["a"]] 0) (.toggleSelectPhoto "b") = true ∧
      ((reducer (AppState.mk [] [] [] ["a"] [["a"]] 0) (.toggleSelectPhoto "b")).history =
        jsSliceTo (AppState.mk [] [] [] ["a"] [["a"]] 0).history
            ((AppState.mk [] [] [] ["a"] [["a"]] 0).currentHistoryIndex + 1) ++
          [(reducer (AppState.mk [] [] [] ["a"] [["a"]] 0)
              (.toggleSelectPhoto "b")).selectedPhotos] ∧
      (reducer (AppState.mk [] [] [] ["a"] [["a"]] 0)
            (.toggleSelectPhoto "b")).currentHistoryIndex =
        ((reducer (AppState.mk [] [] [] ["a"] [["a"]] 0)
            (.toggleSelectPhoto "b")).history.length : ℤ) - 1) :=
  ⟨by decide, by decide, by decide,
    (history_discipline (AppState.mk [] [] [] ["a"] [["a"]] 0) (.toggleSelectPhoto "b")
      (by decide) (by decide)).1 (by decide)⟩

/-- Claim C6: from a state whose pointer (at index >= 0) designates a
history entry equal to the current selection, after any single
history-appending action, `UNDO` restores the previous `selectedPhotos`,
and `REDO` after that `UNDO` restores the selection produced by the
action. -/
theorem undo_redo_roundtrip (s : AppState) (a : PhotoAction)
    (h0 : 0 ≤ s.currentHistoryIndex)
    (h2 : s.currentHistoryIndex < (s.history.length : ℤ))
    (h3 : s.history.getD s.currentHistoryIndex.toNat [] = s.selectedPhotos)
    (ha : appendsEntry s a = true) :
    (reducer (reducer s a) .undo).selectedPhotos = s.selectedPhotos ∧
    (reducer (reducer (reducer s a) .undo) .redo).selectedPhotos =
      (reducer s a).selectedPhotos := by
  obtain ⟨hh, hi⟩ := reducer_append_shape s a (by omega) h2 ha
  have hT : ((jsSliceTo s.history (s.currentHistoryIndex + 1)).length : ℤ) =
      s.currentHistoryIndex + 1 :=
    jsSliceTo_length _ _ (by omega) (by omega)
  set s₁ := reducer s a with hs1
  have hcond : ¬ (s₁.currentHistoryIndex ≤ 0) := by omega
  have huSel : (reducer s₁ PhotoAction.undo).selectedPhotos =
      s₁.history.getD (s₁.currentHistoryIndex - 1).toNat [] := by
    simp only [reducer, if_neg hcond]
  have huHist : (reducer s₁ PhotoAction.undo).history = s₁.history := by
    simp only [reducer, if_neg hcond]
  have huIdx : (reducer s₁ PhotoAction.undo).currentHistoryIndex =
      s₁.currentHistoryIndex - 1 := by
    simp only [reducer, if_neg hcond]
  have hidxlt : s.currentHistoryIndex.toNat <
      (jsSliceTo s.history (s.currentHistoryIndex + 1)).length := by omega
  have hfirst : (reducer s₁ PhotoAction.undo).selectedPhotos = s.selectedPhotos := by
    rw [huSel, hi, hh]
    have hnat : (s.currentHistoryIndex + 1 - 1).toNat = s.currentHistoryIndex.toNat := by omega
    rw [hnat, List.getD_append _ _ _ _ hidxlt]
    have htake : jsSliceTo s.history (s.currentHistoryIndex + 1) =
        s.history.take (s.currentHistoryIndex + 1).toNat := by
      simp [jsSliceTo, if_pos (by omega : (0:ℤ) ≤ s.currentHistoryIndex + 1)]
    rw [htake, List.getD_eq_getElem?_getD, List.getElem?_take_of_lt (by omega),
      ← List.getD_eq_getElem?_getD]
    exact h3
  refine ⟨hfirst, ?_⟩
  set s₂ := reducer s₁ PhotoAction.undo with hs2
  have hrcond : ¬ (((s₂.history.length : ℤ) - 1 ≤ s₂.currentHistoryIndex)) := by
    rw [huHist, huIdx, hh, hi]
    simp only [List.length_append, List.length_singleton]
    push_cast
    omega
  have hrSel : (reducer s₂ PhotoAction.redo).selectedPhotos =
      s₂.history.getD (s₂.currentHistoryIndex + 1).toNat [] := by
    simp only [reducer, if_neg hrcond]
  rw [hrSel, huHist, huIdx, hi, hh]
  have hnat : (s.currentHistoryIndex + 1 - 1 + 1).toNat =
      (jsSliceTo s.history (s.currentHistoryIndex + 1)).length := by omega
  rw [hnat, List.getD_append_right _ _ _ _ (le_refl _), Nat.sub_self]
  rfl

/-- Claim C6 witness: the roundtrip theorem applied to a concrete state and
a concrete toggle action. -/
theorem undo_redo_roundtrip_witness :
    (0 ≤ (AppState.mk [] [] [] ["a"] [["a"]] 0).currentHistoryIndex) ∧
      ((AppState.mk [] [] [] ["a"] [["a"]] 0).currentHistoryIndex <
        ((AppState.mk [] [] [] ["a"] [["a"]] 0).history.length : ℤ)) ∧
      ((AppState.mk [] [] [] ["a"] [["a"]] 0).history.getD
          (AppState.mk [] [] [] ["a"] [["a"]] 0).currentHistoryIndex.toNat [] =
        (AppState.mk [] [] [] ["a"] [["a"]] 0).selectedPhotos) ∧
      appendsEntry (AppState.mk [] [] [] ["a"] [["a"]] 0) (.toggleSelectPhoto "b") = true ∧
      (reducer (reducer (AppState.mk [] [] [] ["a"] [["a"]] 0) (.toggleSelectPhoto "b"))
          .undo).selectedPhotos = (AppState.mk [] [] [] ["a"] [["a"]] 0).selectedPhotos :=
  ⟨by decide, by decide, by decide, by decide,
    (undo_redo_roundtrip (AppState.mk [] [] [] ["a"] [["a"]] 0) (.toggleSelectPhoto "b")
      (by decide) (by decide) (by decide) (by decide)).1⟩

/-! ### Structural lemmas about the grouping pass -/

/-- The combined join test of the inner scan: both embeddings present and
`cos_sim(anchor, candidate) >= threshold`. -/
def joinsAnchor (cs : List ℚ → List ℚ → ℚ) (th : ℚ) (a b : Photo) : Bool :=
  a.embedding.isSome && b.embedding.isSome &&
    decide (th ≤ cs (a.embedding.getD []) (b.embedding.getD []))

lemma scanGroup_sublist (cs : List ℚ → List ℚ → ℚ) (th : ℚ) (a : Photo) :
    ∀ (rest : List Photo) (m : ℚ) (proc : List String),
      List.Sublist (scanGroup cs th a rest m proc).1 rest := by
  intro rest
  induction rest with
  | nil => intro m proc; simp [scanGroup]
  | cons b rest ih =>
    intro m proc
    by_cases h1 : b.id ∈ proc
    · simp only [scanGroup, if_pos h1]
      exact (ih m proc).cons b
    · simp only [scanGroup, if_neg h1]
      by_cases h2 : a.embedding.isSome ∧ b.embedding.isSome
      · simp only [if_pos h2]
        by_cases h3 : th ≤ cs (a.embedding.getD []) (b.embedding.getD [])
        · simp only [if_pos h3]
          exact (ih _ _).cons₂ b
        · simp only [if_neg h3]
          exact (ih m proc).cons b
      · simp only [if_neg h2]
        exact (ih m proc).cons b

lemma scanGroup_minSim (cs : List ℚ → List ℚ → ℚ) (th : ℚ) (a : Photo) :
    ∀ (rest : List Photo) (m : ℚ) (proc : List String),
      (scanGroup cs th a rest m proc).2.1 ≤ m ∧
        (th ≤ m → th ≤ (scanGroup cs th a rest m proc).2.1) := by
  intro rest
  induction rest with
  | nil => intro m proc; exact ⟨le_refl m, fun h => h⟩
  | cons b rest ih =>
    intro m proc
    by_cases h1 : b.id ∈ proc
    · simp only [scanGroup, if_pos h1]
      exact ih m proc
    · simp only [scanGroup, if_neg h1]
      by_cases h2 : a.embedding.isSome ∧ b.embedding.isSome
      · simp only [if_pos h2]
        by_cases h3 : th ≤ cs (a.embedding.getD []) (b.embedding.getD [])
        · simp only [if_pos h3]
          obtain ⟨hle, hge⟩ := ih (min m (cs (a.embedding.getD []) (b.embedding.getD [])))
            (b.id :: proc)
          refine ⟨le_trans hle (min_le_left _ _), fun hm => hge (le_min hm h3)⟩
        · simp only [if_neg h3]
          exact ih m proc
      · simp only [if_neg h2]
        exact ih m proc

lemma scanGroup_proc (cs : List ℚ → List ℚ → ℚ) (th : ℚ) (a : Photo) :
    ∀ (rest : List Photo) (m : ℚ) (proc : List String),
      (scanGroup cs th a rest m proc).2.2 =
        ((scanGroup cs th a rest m proc).1.map Photo.id).reverse ++ proc := by
  intro rest
  induction rest with
  | nil => intro m proc; simp [scanGroup]
  | cons b rest ih =>
    intro m proc
    by_cases h1 : b.id ∈ proc
    · simp only [scanGroup, if_pos h1]
      exact ih m proc
    · simp only [scanGroup, if_neg h1]
      by_cases h2 : a.embedding.isSome ∧ b.embedding.isSome
      · simp only [if_pos h2]
        by_cases h3 : th ≤ cs (a.embedding.getD []) (b.embedding.getD [])
        · simp only [if_pos h3]
          rw [ih]
          simp [List.append_assoc]
        · simp only [if_neg h3]
          exact ih m proc
      · simp only [if_neg h2]
        exact ih m proc

lemma scanGroup_eq_filter (cs : List ℚ → List ℚ → ℚ) (th : ℚ) (a : Photo) :
    ∀ (rest : List Photo) (m : ℚ) (proc : List String),
      (rest.map Photo.id).Nodup →
      (scanGroup cs th a rest m proc).1 =
        rest.filter (fun b => decide (b.id ∉ proc) && joinsAnchor cs th a b) := by
  intro rest
  induction rest with
  | nil => intro m proc _; simp [scanGroup]
  | cons b rest ih =>
    intro m proc hnd
    simp only [List.map_cons, List.nodup_cons] at hnd
    obtain ⟨hbid, hndr⟩ := hnd
    by_cases h1 : b.id ∈ proc
    · simp only [scanGroup, if_pos h1]
      rw [List.filter_cons_of_neg (by simp [h1]), ih m proc hndr]
    · simp only [scanGroup, if_neg h1]
      by_cases h2 : a.embedding.isSome ∧ b.embedding.isSome
      · simp only [if_pos h2]
        by_cases h3 : th ≤ cs (a.embedding.getD []) (b.embedding.getD [])
        · simp only [if_pos h3]
          rw [List.filter_cons_of_pos (by simp [joinsAnchor, h1, h2.1, h2.2, h3])]
          rw [ih _ _ hndr]
          congr 1
          apply List.filter_congr
          intro c hc
          have hcb : ¬ c.id = b.id := by
            intro e
            exact hbid (e ▸ List.mem_map_of_mem Photo.id hc)
          simp [List.mem_cons, hcb]
        · simp only [if_neg h3]
          rw [List.filter_cons_of_neg (by simp [joinsAnchor, h3]), ih m proc hndr]
      · simp only [if_neg h2]
        rw [List.filter_cons_of_neg ?_, ih m proc hndr]
        rw [not_and_or] at h2
        rcases h2 with h2 | h2 <;> simp [joinsAnchor, Bool.eq_false_iff.mpr h2]

lemma headI_mem {l : List Photo} (h : l ≠ []) : l.headI ∈ l := by
  cases l with
  | nil => exact absurd rfl h
  | cons a l => exact List.mem_cons_self a l

/-- Every finalized group of the pass is the quality-descending stable sort
of a candidate subsequence of the input with at least two members, carries
the candidate's minimum joined similarity (between `th`, when `th ≤ 1`, and
1), and takes `date` from the sorted head. -/
lemma groupPass_shape (cs : List ℚ → List ℚ → ℚ) (th : ℚ) :
    ∀ (ps : List Photo) (proc : List String) (g : PhotoGroup),
      g ∈ (groupPass cs th ps proc).1 →
      ∃ cand : List Photo, List.Sublist cand ps ∧ 2 ≤ cand.length ∧
        g.photos = cand.insertionSort qualityDescLE ∧
        g.date = g.photos.headI.dateCreated ∧
        g.similarity ≤ 1 ∧ (th ≤ 1 → th ≤ g.similarity) ∧
        g.similarityThreshold = th := by
  intro ps
  induction ps with
  | nil => intro proc g hg; simp [groupPass] at hg
  | cons a rest ih =>
    intro proc g hg
    by_cases h1 : a.id ∈ proc
    · simp only [groupPass, if_pos h1] at hg
      obtain ⟨cand, hsub, hrest⟩ := ih proc g hg
      exact ⟨cand, hsub.cons a, hrest⟩
    · simp only [groupPass, if_neg h1] at hg
      split at hg
      · rcases List.mem_cons.mp hg with rfl | hg'
        · refine ⟨a :: (scanGroup cs th a rest 1 (a.id :: proc)).1,
            (scanGroup_sublist cs th a rest 1 (a.id :: proc)).cons₂ a, ?_, rfl, rfl, ?_, ?_, rfl⟩
          · simpa using ‹1 < (a :: (scanGroup cs th a rest 1 (a.id :: proc)).1).length›
          · exact (scanGroup_minSim cs th a rest 1 (a.id :: proc)).1
          · exact fun hth => (scanGroup_minSim cs th a rest 1 (a.id :: proc)).2 hth
        · obtain ⟨cand, hsub, hrest⟩ :=
            ih (scanGroup cs th a rest 1 (a.id :: proc)).2.2 g hg'
          exact ⟨cand, hsub.cons a, hrest⟩
      · obtain ⟨cand, hsub, hrest⟩ :=
          ih (scanGroup cs th a rest 1 (a.id :: proc)).2.2 g hg
        exact ⟨cand, hsub.cons a, hrest⟩

lemma groupPass_unique_sublist (cs : List ℚ → List ℚ → ℚ) (th : ℚ) :
    ∀ (ps : List Photo) (proc : List String),
      List.Sublist (groupPass cs th ps proc).2 ps := by
  intro ps
  induction ps with
  | nil => intro proc; simp [groupPass]
  | cons a rest ih =>
    intro proc
    by_cases h1 : a.id ∈ proc
    · simp only [groupPass, if_pos h1]
      exact (ih proc).cons a
    · simp only [groupPass, if_neg h1]
      split
      · exact (ih _).cons a
      · exact (ih _).cons₂ a

/-- The grouping pass partitions the not-yet-processed input photos between
finalized group members and unique photos (multiset-exactly), when input
ids are pairwise distinct. -/
lemma groupPass_perm (cs : List ℚ → List ℚ → ℚ) (th : ℚ) :
    ∀ (ps : List Photo) (proc : List String), (ps.map Photo.id).Nodup →
      List.Perm
        (((groupPass cs th ps proc).1.map PhotoGroup.photos).flatten ++
          (groupPass cs th ps proc).2)
        (ps.filter (fun p => decide (p.id ∉ proc))) := by
  intro ps
  induction ps with
  | nil => intro proc _; simp [groupPass]
  | cons a rest ih =>
    intro proc hnd
    simp only [List.map_cons, List.nodup_cons] at hnd
    obtain ⟨haid, hndr⟩ := hnd
    by_cases h1 : a.id ∈ proc
    · simp only [groupPass, if_pos h1]
      rw [List.filter_cons_of_neg (by simp [h1])]
      exact ih proc hndr
    · simp only [groupPass, if_neg h1]
      rw [List.filter_cons_of_pos (by simp [h1])]
      have hchar : (scanGroup cs th a rest 1 (a.id :: proc)).1 =
          rest.filter (fun b => decide (b.id ∉ proc) && joinsAnchor cs th a b) := by
        rw [scanGroup_eq_filter cs th a rest 1 _ hndr]
        apply List.filter_congr
        intro c hc
        have hca : ¬ c.id = a.id := fun e => haid (e ▸ List.mem_map_of_mem Photo.id hc)
        simp [List.mem_cons, hca]
      have hproc'eq : (scanGroup cs th a rest 1 (a.id :: proc)).2.2 =
          (((scanGroup cs th a rest 1 (a.id :: proc)).1.map Photo.id).reverse) ++
            (a.id :: proc) :=
        scanGroup_proc cs th a rest 1 (a.id :: proc)
      have hIH := ih (scanGroup cs th a rest 1 (a.id :: proc)).2.2 hndr
      have hfilter2 : rest.filter
            (fun p => decide (p.id ∉ (scanGroup cs th a rest 1 (a.id :: proc)).2.2)) =
          rest.filter (fun b => decide (b.id ∉ proc) && !(joinsAnchor cs th a b)) := by
        apply List.filter_congr
        intro c hc
        have hca : ¬ c.id = a.id := fun e => haid (e ▸ List.mem_map_of_mem Photo.id hc)
        have hcj : c.id ∈ (scanGroup cs th a rest 1 (a.id :: proc)).1.map Photo.id ↔
            (c.id ∉ proc ∧ joinsAnchor cs th a c = true) := by
          constructor
          · intro hmem
            obtain ⟨d, hd, hde⟩ := List.mem_map.mp hmem
            rw [hchar] at hd
            have hdrest : d ∈ rest := List.mem_of_mem_filter hd
            have hdc : d = c := List.inj_on_of_nodup_map hndr hdrest hc hde
            have hdp := (List.mem_filter.mp hd).2
            rw [hdc] at hdp
            simp only [Bool.and_eq_true, decide_eq_true_eq] at hdp
            exact hdp
          · intro hp
            refine List.mem_map_of_mem Photo.id ?_
            rw [hchar]
            refine List.mem_filter.mpr ⟨hc, ?_⟩
            simp only [Bool.and_eq_true, decide_eq_true_eq]
            exact hp
        have hiff : (c.id ∉ (scanGroup cs th a rest 1 (a.id :: proc)).2.2) ↔
            (c.id ∉ proc ∧ ¬ joinsAnchor cs th a c = true) := by
          rw [hproc'eq]
          simp only [List.mem_append, List.mem_reverse, List.mem_cons, not_or]
          constructor
          · rintro ⟨hnj, _, hnp⟩
            exact ⟨hnp, fun hj => hnj (hcj.mpr ⟨hnp, hj⟩)⟩
          · rintro ⟨hnp, hnj⟩
            exact ⟨fun hmem => hnj (hcj.mp hmem).2, hca, hnp⟩
        have hd1 : decide (c.id ∉ (scanGroup cs th a rest 1 (a.id :: proc)).2.2) =
            decide (c.id ∉ proc ∧ ¬ joinsAnchor cs th a c = true) := by
          simp only [decide_eq_decide]
          exact hiff
        rw [hd1]
        simp
      have hsplit : List.Perm
          ((scanGroup cs th a rest 1 (a.id :: proc)).1 ++
            rest.filter
              (fun p => decide (p.id ∉ (scanGroup cs th a rest 1 (a.id :: proc)).2.2)))
          (rest.filter (fun p => decide (p.id ∉ proc))) := by
        rw [hchar, hfilter2]
        have e1 : rest.filter (fun b => decide (b.id ∉ proc) && joinsAnchor cs th a b) =
            (rest.filter (fun b => decide (b.id ∉ proc))).filter (joinsAnchor cs th a) := by
          rw [List.filter_filter]
          apply List.filter_congr
          intro c _
          exact Bool.and_comm _ _
        have e2 : rest.filter (fun b => decide (b.id ∉ proc) && !(joinsAnchor cs th a b)) =
            (rest.filter (fun b => decide (b.id ∉ proc))).filter
              (fun b => !(joinsAnchor cs th a b)) := by
          rw [List.filter_filter]
          apply List.filter_congr
          intro c _
          exact Bool.and_comm _ _
        rw [e1, e2]
        exact List.filter_append_perm _ _
      split
      · rw [List.map_cons, List.flatten_cons, List.append_assoc]
        refine List.Perm.trans
          (List.Perm.append (List.perm_insertionSort qualityDescLE _) hIH) ?_
        rw [List.cons_append]
        exact hsplit.cons a
      · rename_i hlen
        have hj0 : (scanGroup cs th a rest 1 (a.id :: proc)).1 = [] := by
          rcases hj : (scanGroup cs th a rest 1 (a.id :: proc)).1 with _ | ⟨x, xs⟩
          · rfl
          · rw [hj] at hlen
            simp at hlen
        refine List.Perm.trans List.perm_middle ?_
        refine List.Perm.cons a ?_
        refine hIH.trans ?_
        have := hsplit
        rw [hj0, List.nil_append] at this
        exact this

/-- The trailing `photos.forEach` of `groupSimilarPhotos` appends exactly
the photos without a usable embedding, in input order, provided no id of a
missing-embedding photo already occurs in the accumulated unique list or
twice in the input. -/
lemma foldl_missing :
    ∀ (photos : List Photo) (acc : List Photo),
      (∀ p ∈ photos, hasEmbedding p = false → ∀ q ∈ acc, q.id ≠ p.id) →
      (photos.map Photo.id).Nodup →
      photos.foldl
        (fun acc p =>
          if (!hasEmbedding p) && !(acc.any (fun up => decide (up.id = p.id)))
          then acc ++ [p] else acc) acc =
        acc ++ photos.filter (fun p => !hasEmbedding p) := by
  intro photos
  induction photos with
  | nil => intro acc _ _; simp
  | cons p rest ih =>
    intro acc hacc hnd
    simp only [List.map_cons, List.nodup_cons] at hnd
    obtain ⟨hpid, hndr⟩ := hnd
    simp only [List.foldl_cons]
    by_cases he : hasEmbedding p
    · rw [if_neg (by simp [he])]
      rw [List.filter_cons_of_neg (by simp [he])]
      exact ih acc (fun r hr hre q hq => hacc r (List.mem_cons_of_mem p hr) hre q hq) hndr
    · have hea : hasEmbedding p = false := Bool.eq_false_iff.mpr he
      have hany : acc.any (fun up => decide (up.id = p.id)) = false := by
        rw [List.any_eq_false]
        intro q hq
        simp only [decide_eq_true_eq]
        exact hacc p (List.mem_cons_self p rest) hea q hq
      rw [if_pos (by simp [hea, hany])]
      rw [List.filter_cons_of_pos (by simp [hea])]
      rw [ih (acc ++ [p]) ?_ hndr]
      · rw [List.append_assoc]
        rfl
      · intro r hr hre q hq
        rcases List.mem_append.mp hq with hq | hq
        · exact hacc r (List.mem_cons_of_mem p hr) hre q hq
        · rw [List.mem_singleton.mp hq]
          intro e
          exact hpid (e ▸ List.mem_map_of_mem Photo.id hr)

/-- Claim C3: with pairwise-distinct input ids, the ids inside the returned
groups together with the ids of `uniquePhotos` are a permutation of the
input ids (so each input id lands in exactly one place), and every photo
with a missing or empty embedding is in `uniquePhotos`. -/
theorem groupSimilarPhotos_partition (cs : List ℚ → List ℚ → ℚ) (photos : List Photo)
    (th : ℚ) (hnd : (photos.map Photo.id).Nodup) :
    List.Perm
      ((((groupSimilarPhotos cs photos th).1.map PhotoGroup.photos).flatten.map Photo.id) ++
        (groupSimilarPhotos cs photos th).2.map Photo.id)
      (photos.map Photo.id) ∧
    ∀ p ∈ photos, hasEmbedding p = false → p ∈ (groupSimilarPhotos cs photos th).2 := by
  by_cases hempty : (photos.filter hasEmbedding).isEmpty
  · have hall : ∀ p ∈ photos, hasEmbedding p = false := by
      intro p hp
      have := List.filter_eq_nil_iff.mp (List.isEmpty_iff.mp hempty) p hp
      exact Bool.eq_false_iff.mpr this
    have hfe : photos.filter (fun p => !hasEmbedding p) = photos :=
      List.filter_eq_self.mpr (fun p hp => by simp [hall p hp])
    constructor
    · simp only [groupSimilarPhotos, if_pos hempty]
      simp only [List.map_nil, List.flatten_nil, List.nil_append]
      refine List.Perm.map Photo.id ?_
      exact (List.perm_insertionSort dateCreatedDescLE _).trans (by rw [hfe])
    · intro p hp hpe
      simp only [groupSimilarPhotos, if_pos hempty]
      rw [List.mem_insertionSort, hfe]
      exact hp
  · have hndWE : ((photos.filter hasEmbedding).map Photo.id).Nodup :=
      List.Nodup.sublist ((List.filter_sublist photos).map Photo.id) hnd
    have hperm0 := groupPass_perm cs th (photos.filter hasEmbedding) [] hndWE
    have hfilterWE : (photos.filter hasEmbedding).filter
        (fun p => decide (p.id ∉ ([] : List String))) = photos.filter hasEmbedding :=
      List.filter_eq_self.mpr (fun p _ => by simp)
    rw [hfilterWE] at hperm0
    have hdisj : ∀ p ∈ photos, hasEmbedding p = false →
        ∀ q ∈ (groupPass cs th (photos.filter hasEmbedding) []).2, q.id ≠ p.id := by
      intro p hp hpe q hq
      have hqWE : q ∈ photos.filter hasEmbedding :=
        (groupPass_unique_sublist cs th (photos.filter hasEmbedding) []).subset hq
      have hqE : hasEmbedding q = true := (List.mem_filter.mp hqWE).2
      have hqp : q ∈ photos := (List.mem_filter.mp hqWE).1
      intro e
      have : q = p := List.inj_on_of_nodup_map hnd hqp hp e
      rw [this, hpe] at hqE
      exact Bool.false_ne_true hqE
    have hfold := foldl_missing photos (groupPass cs th (photos.filter hasEmbedding) []).2
      hdisj hnd
    constructor
    · simp only [groupSimilarPhotos, if_neg hempty]
      rw [hfold]
      have p1 : List.Perm
          ((((List.insertionSort groupDateDescLE
              (groupPass cs th (photos.filter hasEmbedding) []).1).map
                PhotoGroup.photos).flatten).map Photo.id)
          ((((groupPass cs th (photos.filter hasEmbedding) []).1.map
              PhotoGroup.photos).flatten).map Photo.id) :=
        List.Perm.map _ (List.Perm.flatten (List.Perm.map _
          (List.perm_insertionSort groupDateDescLE _)))
      have p2 : List.Perm
          ((List.insertionSort dateCreatedDescLE
            ((groupPass cs th (photos.filter hasEmbedding) []).2 ++
              photos.filter (fun p => !hasEmbedding p))).map Photo.id)
          (((groupPass cs th (photos.filter hasEmbedding) []).2 ++
            photos.filter (fun p => !hasEmbedding p)).map Photo.id) :=
        List.Perm.map _ (List.perm_insertionSort dateCreatedDescLE _)
      refine List.Perm.trans (List.Perm.append p1 p2) ?_
      rw [List.map_append, ← List.append_assoc, ← List.map_append]
      refine List.Perm.trans (List.Perm.append_right _ (List.Perm.map Photo.id hperm0)) ?_
      rw [← List.map_append]
      refine List.Perm.map Photo.id ?_
      exact List.filter_append_perm hasEmbedding photos
    · intro p hp hpe
      simp only [groupSimilarPhotos, if_neg hempty]
      rw [List.mem_insertionSort, hfold]
      refine List.mem_append.mpr (Or.inr ?_)
      exact List.mem_filter.mpr ⟨hp, by simp [hpe]⟩

/-- Claim C3 witness: the partition theorem applied to a concrete
three-photo input with distinct ids. -/
theorem groupSimilarPhotos_partition_witness :
    (([⟨"A", some [1], 50, 30, 30, false⟩, ⟨"B", some [2], 40, 20, 20, false⟩,
        ⟨"C", none, 60, 10, 10, false⟩] : List Photo).map Photo.id).Nodup ∧
      ∀ p ∈ ([⟨"A", some [1], 50, 30, 30, false⟩, ⟨"B", some [2], 40, 20, 20, false⟩,
          ⟨"C", none, 60, 10, 10, false⟩] : List Photo), hasEmbedding p = false →
        p ∈ (groupSimilarPhotos (fun _ _ => 0)
          [⟨"A", some [1], 50, 30, 30, false⟩, ⟨"B", some [2], 40, 20, 20, false⟩,
            ⟨"C", none, 60, 10, 10, false⟩] (mkRat 7 10)).2 :=
  ⟨by decide,
    (groupSimilarPhotos_partition (fun _ _ => 0)
      [⟨"A", some [1], 50, 30, 30, false⟩, ⟨"B", some [2], 40, 20, 20, false⟩,
        ⟨"C", none, 60, 10, 10, false⟩] (mkRat 7 10) (by decide)).2⟩

lemma mem_groups (cs : List ℚ → List ℚ → ℚ) (photos : List Photo) (th : ℚ)
    {g : PhotoGroup} (hg : g ∈ (groupSimilarPhotos cs photos th).1) :
    g ∈ (groupPass cs th (photos.filter hasEmbedding) []).1 := by
  by_cases hempty : (photos.filter hasEmbedding).isEmpty
  · simp [groupSimilarPhotos, hempty] at hg
  · simp only [groupSimilarPhotos, if_neg hempty] at hg
    exact (List.mem_insertionSort _).mp hg

/-! ### Claim C8: group size and quality ordering -/

/-- Claim C8: every returned PhotoGroup has at least two photos, its
`photos` are sorted by quality descending, and photos of equal quality keep
the input (hence candidate) relative order: for every quality value, the
equal-quality subsequence of `photos` is a subsequence of the input
list. -/
theorem groups_sorted_by_quality (cs : List ℚ → List ℚ → ℚ) (photos : List Photo) (th : ℚ) :
    ∀ g ∈ (groupSimilarPhotos cs photos th).1,
      2 ≤ g.photos.length ∧ List.Pairwise qualityDescLE g.photos ∧
      ∀ q : ℤ, List.Sublist (g.photos.filter (fun p => decide (p.quality = q))) photos := by
  intro g hg
  obtain ⟨cand, hsub, hlen, hphotos, _⟩ :=
    groupPass_shape cs th (photos.filter hasEmbedding) [] g (mem_groups cs photos th hg)
  refine ⟨?_, ?_, ?_⟩
  · rw [hphotos, List.length_insertionSort]
    exact hlen
  · rw [hphotos]
    exact List.sorted_insertionSort qualityDescLE cand
  · intro q
    have hcPair : List.Pairwise qualityDescLE
        (cand.filter (fun p => decide (p.quality = q))) := by
      apply List.pairwise_of_forall_mem_list
      intro x hx y hy
      have hxq : x.quality = q := by simpa using (List.mem_filter.mp hx).2
      have hyq : y.quality = q := by simpa using (List.mem_filter.mp hy).2
      unfold qualityDescLE
      rw [hxq, hyq]
    have hcsub : List.Sublist (cand.filter (fun p => decide (p.quality = q)))
        (cand.insertionSort qualityDescLE) :=
      List.sublist_insertionSort hcPair (List.filter_sublist cand)
    have hfilterEq : g.photos.filter (fun p => decide (p.quality = q)) =
        cand.filter (fun p => decide (p.quality = q)) := by
      have h1 : List.Sublist (cand.filter (fun p => decide (p.quality = q)))
          (g.photos.filter (fun p => decide (p.quality = q))) := by
        have hself : (cand.filter (fun p => decide (p.quality = q))).filter
            (fun p => decide (p.quality = q)) =
            cand.filter (fun p => decide (p.quality = q)) :=
          List.filter_eq_self.mpr (fun p hp => (List.mem_filter.mp hp).2)
        have := List.Sublist.filter (fun p => decide (p.quality = q))
          (hphotos ▸ hcsub : List.Sublist (cand.filter (fun p => decide (p.quality = q)))
            g.photos)
        rwa [hself] at this
      have hperm : List.Perm g.photos cand :=
        hphotos ▸ List.perm_insertionSort qualityDescLE cand
      have h2 : (g.photos.filter (fun p => decide (p.quality = q))).length =
          (cand.filter (fun p => decide (p.quality = q))).length :=
        (hperm.filter _).length_eq
      exact (h1.eq_of_length h2.symm).symm
    rw [hfilterEq]
    exact ((List.filter_sublist cand).trans hsub).trans (List.filter_sublist photos)

/-! ### Claims C9 and C10 -/

/-- Claim C9: each group's `date` is the capture date of its index-0 photo;
in this code every photo's metadata capture date equals `dateCreated`
(both are `new Date(file.lastModified)`, no metadata timestamp is ever
parsed), stated as the hypothesis `hcap`. -/
theorem group_date_is_top_capture (cs : List ℚ → List ℚ → ℚ) (photos : List Photo) (th : ℚ)
    (hcap : ∀ p ∈ photos, p.captureDate = p.dateCreated) :
    ∀ g ∈ (groupSimilarPhotos cs photos th).1,
      g.photos ≠ [] ∧ g.date = g.photos.headI.captureDate := by
  intro g hg
  obtain ⟨cand, hsub, hlen, hphotos, hdate, _⟩ :=
    groupPass_shape cs th (photos.filter hasEmbedding) [] g (mem_groups cs photos th hg)
  have hne : g.photos ≠ [] := by
    rw [hphotos]
    intro e
    have := congrArg List.length e
    simp only [List.length_insertionSort, List.length_nil] at this
    omega
  have hmem : g.photos.headI ∈ g.photos := headI_mem hne
  have hmem2 : g.photos.headI ∈ photos := by
    have h3 : g.photos.headI ∈ cand := by
      refine (List.mem_insertionSort qualityDescLE).mp ?_
      rw [← hphotos]
      exact hmem
    exact (List.mem_filter.mp (hsub.subset h3)).1
  refine ⟨hne, ?_⟩
  rw [hcap _ hmem2]
  exact hdate

/-- Claim C10: when the threshold is at most 1, every group's `similarity`
lies between the threshold and 1 (it starts at 1.0 and is only lowered by
anchor-to-member similarities that passed the threshold). -/
theorem group_similarity_bounds (cs : List ℚ → List ℚ → ℚ) (photos : List Photo) (th : ℚ)
    (hth : th ≤ 1) :
    ∀ g ∈ (groupSimilarPhotos cs photos th).1,
      th ≤ g.similarity ∧ g.similarity ≤ 1 := by
  intro g hg
  obtain ⟨cand, _, _, _, _, hle1, hge, _⟩ :=
    groupPass_shape cs th (photos.filter hasEmbedding) [] g (mem_groups cs photos th hg)
  exact ⟨hge hth, hle1⟩

/-! ### Claim C1: the three-photo chaining scenario -/

/-- Concrete similarity oracle realizing sim(A,B)=0.8, sim(B,C)=0.75,
sim(A,C)=0.5 on the embeddings [1], [2], [3], with the rationals written
via `mkRat` so that the kernel can evaluate them. -/
def simConcrete (x y : List ℚ) : ℚ :=
  if (x = [1] ∧ y = [2]) ∨ (x = [2] ∧ y = [1]) then mkRat 8 10
  else if (x = [2] ∧ y = [3]) ∨ (x = [3] ∧ y = [2]) then mkRat 75 100
  else if (x = [1] ∧ y = [3]) ∨ (x = [3] ∧ y = [1]) then mkRat 5 10
  else 0

/-- The same oracle with the rationals written as the spec writes them. -/
def simChain (x y : List ℚ) : ℚ :=
  if (x = [1] ∧ y = [2]) ∨ (x = [2] ∧ y = [1]) then 8/10
  else if (x = [2] ∧ y = [3]) ∨ (x = [3] ∧ y = [2]) then 75/100
  else if (x = [1] ∧ y = [3]) ∨ (x = [3] ∧ y = [1]) then 5/10
  else 0

def photoA : Photo := ⟨"A", some [1], 50, 30, 30, false⟩
def photoB : Photo := ⟨"B", some [2], 40, 20, 20, false⟩
def photoC : Photo := ⟨"C", some [3], 60, 10, 10, false⟩

/-- Claim C1 counterexample: in the scenario sim(A,B)=0.8, sim(B,C)=0.75,
sim(A,C)=0.5 at threshold 0.7 with A processed first, the code's single
group is {A, B} (a candidate is compared only to the anchor A, never to B)
and C lands in `uniquePhotos` — refuting the claimed chained group
{A, B, C} with C absent from `uniquePhotos`. -/
theorem chaining_scenario_counterexample :
    simConcrete [1] [2] = 8/10 ∧ simConcrete [2] [3] = 75/100 ∧
      simConcrete [1] [3] = 5/10 ∧ mkRat 7 10 = 7/10 ∧
      (groupSimilarPhotos simConcrete [photoA, photoB, photoC] (mkRat 7 10)).1.map
          (fun g => g.photos.map Photo.id) = [["A", "B"]] ∧
      (groupSimilarPhotos simConcrete [photoA, photoB, photoC] (mkRat 7 10)).2.map
          Photo.id = ["C"] := by
  refine ⟨?_, ?_, ?_, ?_, by decide, by decide⟩
  · show mkRat 8 10 = 8/10
    rw [Rat.mkRat_eq_div]; norm_num
  · show mkRat 75 100 = 75/100
    rw [Rat.mkRat_eq_div]; norm_num
  · show mkRat 5 10 = 5/10
    rw [Rat.mkRat_eq_div]; norm_num
  · rw [Rat.mkRat_eq_div]; norm_num

lemma hasEmbedding_isSome {p : Photo} (h : hasEmbedding p = true) :
    p.embedding.isSome = true := by
  unfold hasEmbedding at h
  cases hp : p.embedding with
  | none => rw [hp] at h; simp at h
  | some e => simp [hp]

/-- Claim C1 (amended): for any similarity oracle and photos A, B, C with
usable embeddings and pairwise distinct ids, processed in order A, B, C,
with sim(A,B)=0.8, sim(B,C)=0.75, sim(A,C)=0.5 and threshold 0.7, the
result contains exactly one group, whose member set is {A, B}, and C
appears (alone) in uniquePhotos: candidates are compared only to the
anchor A, so C is not chained in via B. -/
theorem chaining_scenario (cs : List ℚ → List ℚ → ℚ) (A B C : Photo)
    (hA : hasEmbedding A = true) (hB : hasEmbedding B = true) (hC : hasEmbedding C = true)
    (hAB : A.id ≠ B.id) (hAC : A.id ≠ C.id) (hBC : B.id ≠ C.id)
    (sAB : cs (A.embedding.getD []) (B.embedding.getD []) = 8/10)
    (_sBC : cs (B.embedding.getD []) (C.embedding.getD []) = 75/100)
    (sAC : cs (A.embedding.getD []) (C.embedding.getD []) = 5/10) :
    ∃ g, (groupSimilarPhotos cs [A, B, C] (7/10)).1 = [g] ∧
      List.Perm g.photos [A, B] ∧
      (groupSimilarPhotos cs [A, B, C] (7/10)).2 = [C] := by
  have hAs := hasEmbedding_isSome hA
  have hBs := hasEmbedding_isSome hB
  have hCs := hasEmbedding_isSome hC
  have h78 : (7:ℚ)/10 ≤ 8/10 := by norm_num
  have h57 : ¬ ((7:ℚ)/10 ≤ 5/10) := by norm_num
  have hnB : ¬ (B.id ∈ [A.id]) := by
    simp only [List.mem_singleton]
    exact fun e => hAB e.symm
  have hnC : ¬ (C.id ∈ [B.id, A.id]) := by
    intro h
    rcases List.mem_cons.mp h with e | h2
    · exact hBC e.symm
    · exact hAC (List.mem_singleton.mp h2).symm
  have hscan : scanGroup cs (7/10) A [B, C] 1 [A.id] =
      ([B], min 1 (8/10), [B.id, A.id]) := by
    simp only [scanGroup]
    rw [if_neg hnB, if_pos ⟨hAs, hBs⟩, sAB, if_pos h78, if_neg hnC,
      if_pos ⟨hAs, hCs⟩, sAC, if_neg h57]
  have hscanC : scanGroup cs (7/10) C ([] : List Photo) 1 [C.id, B.id, A.id] =
      ([], 1, [C.id, B.id, A.id]) := by
    simp only [scanGroup]
  have hpass : groupPass cs (7/10) [A, B, C] [] =
      ([⟨(([A, B].insertionSort qualityDescLE).headI.id) ++ "-group",
          ([A, B].insertionSort qualityDescLE).headI.dateCreated,
          [A, B].insertionSort qualityDescLE,
          min 1 (8/10), 7/10⟩], [C]) := by
    simp only [groupPass]
    rw [if_neg (List.not_mem_nil A.id), hscan]
    rw [if_pos (List.mem_cons_self B.id [A.id])]
    rw [if_neg hnC, hscanC]
    simp
  have hfil : ([A, B, C] : List Photo).filter hasEmbedding = [A, B, C] := by
    rw [List.filter_cons_of_pos hA, List.filter_cons_of_pos hB,
      List.filter_cons_of_pos hC, List.filter_nil]
  refine ⟨⟨(([A, B].insertionSort qualityDescLE).headI.id) ++ "-group",
      ([A, B].insertionSort qualityDescLE).headI.dateCreated,
      [A, B].insertionSort qualityDescLE,
      min 1 (8/10), 7/10⟩, ?_, ?_, ?_⟩
  · simp only [groupSimilarPhotos, hfil]
    rw [if_neg (by simp : ¬ ([A, B, C] : List Photo).isEmpty = true)]
    rw [hpass]
    simp [hA, hB, hC, List.insertionSort, List.orderedInsert]
  · exact List.perm_insertionSort qualityDescLE [A, B]
  · simp only [groupSimilarPhotos, hfil]
    rw [if_neg (by simp : ¬ ([A, B, C] : List Photo).isEmpty = true)]
    rw [hpass]
    simp [hA, hB, hC, List.insertionSort, List.orderedInsert]

/-- Claim C1 witness: the amended scenario theorem applied to concrete
photos with embeddings [1], [2], [3] and the concrete oracle. -/
theorem chaining_scenario_witness :
    hasEmbedding photoA = true ∧ photoA.id ≠ photoB.id ∧
      simChain (photoA.embedding.getD []) (photoB.embedding.getD []) = 8/10 ∧
      ∃ g, (groupSimilarPhotos simChain [photoA, photoB, photoC] (7/10)).1 = [g] ∧
        List.Perm g.photos [photoA, photoB] ∧
        (groupSimilarPhotos simChain [photoA, photoB, photoC] (7/10)).2 = [photoC] :=
  ⟨by decide, by decide, rfl,
    chaining_scenario simChain photoA photoB photoC (by decide) (by decide) (by decide)
      (by decide) (by decide) (by decide) rfl rfl rfl⟩

/-- Claim C8 witness: the ordering theorem applied to the concrete group
{A, B} produced by the concrete scenario. -/
theorem groups_sorted_by_quality_witness :
    (⟨"A-group", 30, [photoA, photoB], mkRat 8 10, mkRat 7 10⟩ : PhotoGroup) ∈
        (groupSimilarPhotos simConcrete [photoA, photoB, photoC] (mkRat 7 10)).1 ∧
      2 ≤ (⟨"A-group", 30, [photoA, photoB], mkRat 8 10, mkRat 7 10⟩ : PhotoGroup).photos.length ∧
      List.Pairwise qualityDescLE
        (⟨"A-group", 30, [photoA, photoB], mkRat 8 10, mkRat 7 10⟩ : PhotoGroup).photos :=
  ⟨by decide,
    (groups_sorted_by_quality simConcrete [photoA, photoB, photoC] (mkRat 7 10) _
      (by decide)).1,
    (groups_sorted_by_quality simConcrete [photoA, photoB, photoC] (mkRat 7 10) _
      (by decide)).2.1⟩

/-- Claim C9 witness: the date theorem applied to the concrete scenario. -/
theorem group_date_is_top_capture_witness :
    (∀ p ∈ ([photoA, photoB, photoC] : List Photo), p.captureDate = p.dateCreated) ∧
      (⟨"A-group", 30, [photoA, photoB], mkRat 8 10, mkRat 7 10⟩ : PhotoGroup) ∈
        (groupSimilarPhotos simConcrete [photoA, photoB, photoC] (mkRat 7 10)).1 ∧
      (⟨"A-group", 30, [photoA, photoB], mkRat 8 10, mkRat 7 10⟩ : PhotoGroup).date =
        (⟨"A-group", 30, [photoA, photoB], mkRat 8 10, mkRat 7 10⟩ :
          PhotoGroup).photos.headI.captureDate :=
  ⟨by decide, by decide,
    (group_date_is_top_capture simConcrete [photoA, photoB, photoC] (mkRat 7 10)
      (by decide) _ (by decide)).2⟩

/-- Claim C10 witness: the similarity-bounds theorem applied to the
concrete scenario (threshold 0.7, observed similarity 0.8). -/
theorem group_similarity_bounds_witness :
    (mkRat 7 10 ≤ 1) ∧
      (⟨"A-group", 30, [photoA, photoB], mkRat 8 10, mkRat 7 10⟩ : PhotoGroup) ∈
        (groupSimilarPhotos simConcrete [photoA, photoB, photoC] (mkRat 7 10)).1 ∧
      (mkRat 7 10 ≤
          (⟨"A-group", 30, [photoA, photoB], mkRat 8 10, mkRat 7 10⟩ : PhotoGroup).similarity ∧
        (⟨"A-group", 30, [photoA, photoB], mkRat 8 10, mkRat 7 10⟩ :
            PhotoGroup).similarity ≤ 1) :=
  ⟨by decide, by decide,
    group_similarity_bounds simConcrete [photoA, photoB, photoC] (mkRat 7 10)
      (by decide) _ (by decide)⟩

end BestPick
